import Mathlib

/-!
Shallow embedding of the overlayfs-csi base lifecycle manager (`src/lib.rs`).

The embedding models:
* the on-disk bases root as a list of `Base` values (directory name plus the
  state of its `.as_base` marker file),
* the in-memory registry (`Mutex<HashMap<Base, HashSet<String>>>`) as an
  association list from base name to a duplicate-free list of volume ids,
* the operations `Base::valid`, `Overlays::mount`, `Overlays::cleanup`,
  `Overlays::unmount`, `Overlays::watch_pod` and the retry loop of
  `Overlays::create_pod` as pure functions, with the fallible external
  effects (filesystem calls, `mount`/`umount` commands, Kubernetes API
  calls) made explicit as boolean success parameters and with the commands
  the code invokes recorded in an action trace.

Time is modelled at whole-second granularity as `Int` (the code compares
`age.whole_seconds() < max_age_s`).
-/

namespace Overlayfs

/-- State of a base directory's `.as_base` marker file, as observed by
`Base::read_time`: the file may be absent (read fails), present but not
RFC-3339 (parse fails), or hold a timestamp (modelled in whole seconds). -/
inductive Marker where
  | absent
  | unparsable
  | ts (t : Int)
deriving DecidableEq, Repr

/-- `Base::read_time`: `Ok` exactly when the marker file exists and parses. -/
def Marker.readTime : Marker → Option Int
  | .ts t => some t
  | _ => none

/-- A base directory under the bases root: its directory name and the state
of its marker file (`Base` in the source holds the path; the marker contents
live on disk and are bundled here). -/
structure Base where
  name : String
  marker : Marker
deriving DecidableEq, Repr

/-- `Base::valid`: `read_time` must succeed, the age `now - t` must not be
negative, and must be strictly below `max_age_s`. -/
def Base.valid (b : Base) (now maxAge : Int) : Bool :=
  match b.marker.readTime with
  | none => false
  | some dt =>
    let age := now - dt
    if age < 0 then false
    else if age < maxAge then true
    else false

end Overlayfs

namespace Overlayfs

/-- The in-memory registry `HashMap<Base, HashSet<String>>`, modelled as an
association list from base name to the set (duplicate-free list) of volume
ids using that base. -/
abbrev Registry := List (String × List String)

/-- Look up the set stored for a base, if an entry exists. -/
def lookupSet : Registry → String → Option (List String)
  | [], _ => none
  | e :: rest, k => if e.1 == k then some e.2 else lookupSet rest k

/-- The set stored for a base, defaulting to the empty set (the value
`HashMap::entry(..).or_default()` would expose). -/
def setOf (m : Registry) (k : String) : List String :=
  (lookupSet m k).getD []

/-- `mapping.entry(base).or_default()`: ensure an entry exists for `k`,
inserting an empty set when absent. -/
def entryOrDefault (m : Registry) (k : String) : Registry :=
  if (lookupSet m k).isSome then m else m ++ [(k, [])]

/-- `mapping.remove(&base)`: drop the entry for `k`. -/
def removeKey : Registry → String → Registry
  | [], _ => []
  | e :: rest, k =>
    if e.1 == k then removeKey rest k else e :: removeKey rest k

/-- `HashSet::insert`: add a volume id to a set if not present. -/
def setInsert (s : List String) (x : String) : List String :=
  if s.contains x then s else s ++ [x]

/-- `mapping.entry(base).or_default().insert(id)`. -/
def assocInsert (m : Registry) (k v : String) : Registry :=
  match m with
  | [] => [(k, [v])]
  | e :: rest =>
    if e.1 == k then (e.1, setInsert e.2 v) :: rest
    else e :: assocInsert rest k v

/-- `for volumes in mapping.values_mut() { volumes.remove(id) }`. -/
def dissociate (m : Registry) (id : String) : Registry :=
  m.map (fun e => (e.1, e.2.filter (fun v => ¬ v == id)))

/-- `mapping.values().flatten().any(|v| v == id)`. -/
def isOverlay (m : Registry) (id : String) : Bool :=
  m.any (fun e => e.2.contains id)

/-- Coordinator state: the registry behind the mutex, the bases root on disk
(list of base directories in enumeration order), and whether `read_dir` on
the bases root succeeds. -/
structure St where
  registry : Registry
  disk : List Base
  enumOk : Bool
deriving DecidableEq, Repr

/-- `Overlays::bases`: enumerate the bases root (`read_dir` may fail). -/
def St.bases (st : St) : Except Unit (List Base) :=
  if st.enumOk then .ok st.disk else .error ()

/-- `Overlays::find_valid_base`: the first valid base in enumeration order. -/
def findValidBase (st : St) (now maxAge : Int) : Except Unit (Option Base) :=
  match st.bases with
  | .error e => .error e
  | .ok l => .ok (l.find? (fun b => b.valid now maxAge))

/-- The `no_valid_base` classification computed in `Overlays::unmount`:
`self.find_valid_base().map_or(true, |o| o.is_none())` — enumeration failure
counts as "no valid base". -/
def noValidBase (st : St) (now maxAge : Int) : Bool :=
  match findValidBase st now maxAge with
  | .error _ => true
  | .ok o => o.isNone

/-- Errors `Overlays::cleanup` can return: the bases-root enumeration failed,
or `remove_dir_all` failed on the named base. -/
inductive CErr where
  | enumFail
  | removeFail (b : String)
deriving DecidableEq, Repr

/-- The loop body of `Overlays::cleanup` over the (lazily `!valid`-filtered)
enumeration: for each invalid base, materialise its registry entry
(`entry(..).or_default()`); if the set is empty, remove the directory
(fallible, modelled by `rf`) and drop the entry. Returns the updated
registry, the surviving disk entries, and the error that aborted the loop,
if any. -/
def cleanupGo (now maxAge : Int) (rf : String → Bool) :
    List Base → Registry → Registry × List Base × Option CErr
  | [], m => (m, [], none)
  | b :: rest, m =>
    if b.valid now maxAge then
      let r := cleanupGo now maxAge rf rest m
      (r.1, b :: r.2.1, r.2.2)
    else
      let m1 := entryOrDefault m b.name
      if (setOf m1 b.name).isEmpty then
        if rf b.name then (m1, b :: rest, some (.removeFail b.name))
        else
          cleanupGo now maxAge rf rest (removeKey m1 b.name)
      else
        let r := cleanupGo now maxAge rf rest m1
        (r.1, b :: r.2.1, r.2.2)

/-- `Overlays::cleanup` (the reaper pass): enumerate bases and delete those
that are invalid and unreferenced. `rf` tells which `remove_dir_all` calls
fail. -/
def cleanup (st : St) (now maxAge : Int) (rf : String → Bool) :
    St × Option CErr :=
  if st.enumOk then
    let r := cleanupGo now maxAge rf st.disk st.registry
    ({ st with registry := r.1, disk := r.2.1 }, r.2.2)
  else (st, some .enumFail)

/-- External commands and filesystem mutations invoked by the coordinator,
recorded in invocation order. `renameAct src dst` is
`std::fs::rename(src, bases_host/dst)`; `writeMarkerAct b t` is
`Base::write_time` on `bases_host/b` with current time `t`;
`overlayMount lower id target` is the
`mount -t overlay <id> -o lowerdir=<lower>,... <target>` command;
`mkdirAct` records the `create_dir_all` calls for `upper/` and `workdir/`. -/
inductive Act where
  | createPodAct (id : String)
  | mkdirAct (path : String)
  | overlayMount (lower id target : String)
  | bindMount (src target : String)
  | renameAct (src dst : String)
  | writeMarkerAct (b : String) (t : Int)
  | umountAct (target : String)
  | deletePodAct (id : String)
deriving DecidableEq, Repr

/-- Result of a coordinator operation: the returned `anyhow::Result`, the
state after the call (also when it returned early with an error), and the
trace of invoked effects. -/
structure MRes where
  res : Except Unit Unit
  st : St
  acts : List Act
deriving Repr

/-- `Overlays::empty_dir`: `pods_root/uid/volumes/kubernetes.io~empty-dir/v`. -/
def emptyDir (podsRoot uid v : String) : String :=
  podsRoot ++ "/" ++ uid ++ "/volumes/kubernetes.io~empty-dir/" ++ v

/-- `Overlays::volume_dir`: the scratch directory of a workload pod. -/
def volumeDir (podsRoot uid : String) : String :=
  emptyDir podsRoot uid "volume"

/-- Success/failure of the external effects `Overlays::mount` performs, plus
the pod UID `create_pod` returns. -/
structure MountEnv where
  uid : String
  createPodOk : Bool
  mkMountpointOk : Bool
  mkUpperOk : Bool
  mkWorkOk : Bool
  mkVolumeDirOk : Bool
  mountCmdOk : Bool
deriving DecidableEq, Repr

/-- `Overlays::mount`: provision the scratch pod, take the lock, create the
mountpoint, and either overlay-mount on the first valid base (registering
the volume on success) or bind-mount the scratch directory when no valid
base exists. -/
def mount (st : St) (id target podsRoot : String) (now maxAge : Int)
    (e : MountEnv) : MRes :=
  if ¬ e.createPodOk then ⟨.error (), st, [.createPodAct id]⟩ else
  let vdir := volumeDir podsRoot e.uid
  let acts0 : List Act := [.createPodAct id]
  if ¬ e.mkMountpointOk then ⟨.error (), st, acts0⟩ else
  match findValidBase st now maxAge with
  | .error _ => ⟨.error (), st, acts0⟩
  | .ok (some base) =>
    let upper := vdir ++ "/upper"
    let work := vdir ++ "/workdir"
    if ¬ e.mkUpperOk then ⟨.error (), st, acts0⟩ else
    if ¬ e.mkWorkOk then ⟨.error (), st, acts0 ++ [.mkdirAct upper]⟩ else
    let acts1 := acts0 ++
      [.mkdirAct upper, .mkdirAct work, .overlayMount base.name id target]
    if ¬ e.mountCmdOk then ⟨.error (), st, acts1⟩
    else
      ⟨.ok (), { st with registry := assocInsert st.registry base.name id },
        acts1⟩
  | .ok none =>
    if ¬ e.mkVolumeDirOk then ⟨.error (), st, acts0⟩ else
    let acts1 := acts0 ++ [.bindMount vdir target]
    if ¬ e.mountCmdOk then ⟨.error (), st, acts1⟩
    else ⟨.ok (), st, acts1⟩

/-- Success/failure of the external effects `Overlays::unmount` performs.
`uid` is the pod UID returned by `pods.get(id)`; `scratchMarker` is the
state of the `.as_base` file inside the scratch directory (`none` when the
file does not exist); `umountExitOk` is the exit status of `umount -f`,
which the source runs `unchecked`. -/
structure UnmountEnv where
  uid : String
  podGetOk : Bool
  scratchMarker : Option Marker
  renameOk : Bool
  writeTimeOk : Bool
  umountExitOk : Bool
  deletePodOk : Bool
deriving DecidableEq, Repr

/-- The tail of `Overlays::unmount` after the promotion block: dissociate
the volume from every registry set, run `umount -f` (exit status ignored),
and request background deletion of the sidecar pod. -/
def unmountRest (st : St) (id target : String) (e : UnmountEnv)
    (acts : List Act) : MRes :=
  let st1 := { st with registry := dissociate st.registry id }
  let acts1 := acts ++ [Act.umountAct target, Act.deletePodAct id]
  if ¬ e.deletePodOk then ⟨.error (), st1, acts1⟩ else ⟨.ok (), st1, acts1⟩

/-- `Overlays::unmount`: classify the volume (`is_overlay`,
`no_valid_base`), promote the scratch directory into a base when
`!is_overlay && no_valid_base` and the scratch contains the `.as_base`
marker (rename, then write a fresh marker with the current time), then
dissociate, `umount -f` and delete the sidecar pod. -/
def unmount (st : St) (id target podsRoot : String) (now maxAge : Int)
    (e : UnmountEnv) : MRes :=
  let is_ov := isOverlay st.registry id
  let no_vb := noValidBase st now maxAge
  if !is_ov && no_vb then
    if ¬ e.podGetOk then ⟨.error (), st, []⟩
    else
      let vdir := volumeDir podsRoot e.uid
      match e.scratchMarker with
      | some mk =>
        if ¬ e.renameOk then ⟨.error (), st, [.renameAct vdir id]⟩
        else if ¬ e.writeTimeOk then
          ⟨.error (), { st with disk := st.disk ++ [⟨id, mk⟩] },
            [.renameAct vdir id, .writeMarkerAct id now]⟩
        else
          unmountRest { st with disk := st.disk ++ [⟨id, .ts now⟩] } id
            target e [.renameAct vdir id, .writeMarkerAct id now]
      | none => unmountRest st id target e []
  else unmountRest st id target e []

/-- One item delivered by the pod watch stream of `Overlays::watch_pod`: a
transport error (`try_next` returns `Err`), a `Modified` event carrying the
pod's status phase, or any other watch event. -/
inductive WItem where
  | errItem
  | modified (phase : Option String)
  | other
deriving DecidableEq, Repr

/-- `Overlays::watch_pod` on one watch stream: propagate transport errors,
return success on a `Modified` event whose phase is `"Running"`, ignore
every other event, and return success when the stream ends. The `Bool`
records whether the `Running` event was observed (the source returns
`Ok(())` in both cases). -/
def watchPod : List WItem → Except Unit Bool
  | [] => .ok false
  | .errItem :: _ => .error ()
  | .modified p :: rest =>
    if p == some "Running" then .ok true else watchPod rest
  | .other :: rest => watchPod rest

/-- The retry loop of `Overlays::create_pod`: run `watch_pod`; on `Ok`
return the pod uid (`some`, tagged with whether Running was observed); on
`Err` restart the watch, consuming the next stream. `none` models the loop
still retrying after the supplied streams are exhausted. -/
def createPodLoop : List (List WItem) → Option Bool
  | [] => none
  | s :: rest =>
    match watchPod s with
    | .ok b => some b
    | .error _ => createPodLoop rest

/-- A `Modified` event with phase `"Running"` occurs in the stream before
any transport error. -/
def runningBeforeErr : List WItem → Bool
  | [] => false
  | .errItem :: _ => false
  | .modified p :: rest => p == some "Running" || runningBeforeErr rest
  | .other :: rest => runningBeforeErr rest

/-! ### Helper lemmas about the registry operations -/

lemma lookupSet_append (m1 m2 : Registry) (k : String) :
    lookupSet (m1 ++ m2) k =
      match lookupSet m1 k with
      | some s => some s
      | none => lookupSet m2 k := by
  induction m1 with
  | nil => rfl
  | cons e rest ih =>
    by_cases h : e.1 = k
    · simp [lookupSet, h]
    · simp only [List.cons_append, lookupSet]
      rw [if_neg (by simpa using h), if_neg (by simpa using h)]
      exact ih

lemma lookupSet_entryOrDefault_self (m : Registry) (k : String) :
    lookupSet (entryOrDefault m k) k = some (setOf m k) := by
  unfold entryOrDefault
  cases h : lookupSet m k with
  | some s => simp [h, setOf]
  | none =>
    simp only [h, Option.isSome_none, Bool.false_eq_true, if_false]
    rw [lookupSet_append, h]
    simp [lookupSet, setOf, h]

lemma lookupSet_entryOrDefault_ne (m : Registry) (k k' : String)
    (h : k ≠ k') :
    lookupSet (entryOrDefault m k) k' = lookupSet m k' := by
  unfold entryOrDefault
  split
  · rfl
  · rw [lookupSet_append]
    cases hm : lookupSet m k' with
    | some s => rfl
    | none => simp [lookupSet, h]

lemma setOf_entryOrDefault_self (m : Registry) (k : String) :
    setOf (entryOrDefault m k) k = setOf m k := by
  simp [setOf, lookupSet_entryOrDefault_self]

lemma entryOrDefault_of_nonempty (m : Registry) (k : String)
    (h : (setOf m k).isEmpty = false) : entryOrDefault m k = m := by
  unfold entryOrDefault
  cases hm : lookupSet m k with
  | some s => simp [hm]
  | none => simp [setOf, hm] at h

lemma lookupSet_removeKey_self (m : Registry) (k : String) :
    lookupSet (removeKey m k) k = none := by
  induction m with
  | nil => rfl
  | cons e rest ih =>
    by_cases h : e.1 = k
    · simpa [removeKey, h] using ih
    · simp only [removeKey]
      rw [if_neg (by simpa using h)]
      simpa [lookupSet, h] using ih

lemma lookupSet_removeKey_ne (m : Registry) (k k' : String) (h : k ≠ k') :
    lookupSet (removeKey m k) k' = lookupSet m k' := by
  induction m with
  | nil => rfl
  | cons e rest ih =>
    by_cases h1 : e.1 = k
    · have h2 : e.1 ≠ k' := h1 ▸ h
      simp only [removeKey]
      rw [if_pos (by simpa using h1), ih]
      simp [lookupSet, h2]
    · simp only [removeKey]
      rw [if_neg (by simpa using h1)]
      by_cases h2 : e.1 = k'
      · simp [lookupSet, h2]
      · simpa [lookupSet, h2] using ih

lemma contains_filter_ne (s : List String) (id : String) :
    (s.filter (fun v => ¬ v == id)).contains id = false := by
  induction s with
  | nil => rfl
  | cons a s ih =>
    by_cases h : a = id
    · simp [List.filter, h, ih]
    · simp only [List.filter_cons]
      rw [if_pos (by simpa using h)]
      simp [List.contains_cons, Ne.symm h, ih]

lemma isOverlay_dissociate (m : Registry) (id : String) :
    isOverlay (dissociate m id) id = false := by
  induction m with
  | nil => rfl
  | cons e rest ih =>
    simp only [dissociate, List.map_cons, isOverlay, List.any_cons] at *
    rw [contains_filter_ne, ih]
    rfl

lemma mem_setOf_assocInsert_self (m : Registry) (k v : String) :
    v ∈ setOf (assocInsert m k v) k := by
  induction m with
  | nil => simp [assocInsert, setOf, lookupSet]
  | cons e rest ih =>
    by_cases h : e.1 = k
    · simp only [assocInsert]
      rw [if_pos (by simpa using h)]
      simp only [setOf, lookupSet]
      rw [if_pos (by simpa using h)]
      simp only [Option.getD_some, setInsert]
      split
      · next hc => exact List.mem_of_elem_eq_true hc
      · simp
    · simp only [assocInsert]
      rw [if_neg (by simpa using h)]
      simp only [setOf, lookupSet] at *
      rw [if_neg (by simpa using h)]
      exact ih

/-- Full characterisation of a reap pass in which no directory removal
fails: no error, the surviving disk entries are exactly the valid or
referenced bases, registry entries outside the enumerated names are
untouched, deleted bases lose their entry, and surviving invalid bases keep
their entry. -/
lemma cleanupGo_ok_spec (now maxAge : Int) (disk : List Base) (m : Registry)
    (hnd : (disk.map Base.name).Nodup) :
    (cleanupGo now maxAge (fun _ => false) disk m).2.2 = none
    ∧ (cleanupGo now maxAge (fun _ => false) disk m).2.1 =
        disk.filter (fun b => b.valid now maxAge || !(setOf m b.name).isEmpty)
    ∧ (∀ k, k ∉ disk.map Base.name →
        lookupSet (cleanupGo now maxAge (fun _ => false) disk m).1 k =
          lookupSet m k)
    ∧ (∀ b ∈ disk, b.valid now maxAge = false →
        (setOf m b.name).isEmpty = true →
        lookupSet (cleanupGo now maxAge (fun _ => false) disk m).1 b.name =
          none)
    ∧ (∀ b ∈ disk, b.valid now maxAge = false →
        (setOf m b.name).isEmpty = false →
        lookupSet (cleanupGo now maxAge (fun _ => false) disk m).1 b.name =
          lookupSet m b.name) := by
  induction disk generalizing m with
  | nil =>
    refine ⟨rfl, rfl, fun k _ => rfl, ?_, ?_⟩ <;> intro b hb <;> cases hb
  | cons b rest ih =>
    have hmap : ((b :: rest).map Base.name) = b.name :: rest.map Base.name :=
      rfl
    rw [hmap] at hnd
    have hnd1 : b.name ∉ rest.map Base.name := (List.nodup_cons.mp hnd).1
    have hnd2 : (rest.map Base.name).Nodup := (List.nodup_cons.mp hnd).2
    by_cases hv : b.valid now maxAge = true
    · have hgo : cleanupGo now maxAge (fun _ => false) (b :: rest) m =
          ((cleanupGo now maxAge (fun _ => false) rest m).1,
           b :: (cleanupGo now maxAge (fun _ => false) rest m).2.1,
           (cleanupGo now maxAge (fun _ => false) rest m).2.2) := by
        simp [cleanupGo, hv]
      obtain ⟨i1, i2, i3, i4, i5⟩ := ih m hnd2
      refine ⟨by rw [hgo]; exact i1, ?_, ?_, ?_, ?_⟩
      · rw [hgo]
        simp only [List.filter_cons, hv, Bool.true_or, if_true]
        rw [i2]
      · intro k hk
        rw [hgo]
        simp only [hmap, List.mem_cons, not_or] at hk
        exact i3 k hk.2
      · intro x hx hxv hxe
        rw [hgo]
        rcases List.mem_cons.mp hx with rfl | hx'
        · rw [hv] at hxv; cases hxv
        · exact i4 x hx' hxv hxe
      · intro x hx hxv hxe
        rw [hgo]
        rcases List.mem_cons.mp hx with rfl | hx'
        · rw [hv] at hxv; cases hxv
        · exact i5 x hx' hxv hxe
    · have hv' : b.valid now maxAge = false := by
        simpa using hv
      by_cases he : (setOf m b.name).isEmpty = true
      · have hgo : cleanupGo now maxAge (fun _ => false) (b :: rest) m =
            cleanupGo now maxAge (fun _ => false) rest
              (removeKey (entryOrDefault m b.name) b.name) := by
          simp [cleanupGo, hv', setOf_entryOrDefault_self, he]
        have htrans : ∀ k, k ≠ b.name →
            lookupSet (removeKey (entryOrDefault m b.name) b.name) k =
              lookupSet m k := by
          intro k hk
          rw [lookupSet_removeKey_ne _ _ _ (Ne.symm hk),
            lookupSet_entryOrDefault_ne _ _ _ (Ne.symm hk)]
        have hnames : ∀ x ∈ rest, x.name ≠ b.name := by
          intro x hx hcon
          exact hnd1 (hcon ▸ List.mem_map_of_mem Base.name hx)
        have hsets : ∀ x ∈ rest,
            setOf (removeKey (entryOrDefault m b.name) b.name) x.name =
              setOf m x.name := by
          intro x hx
          simp [setOf, htrans x.name (hnames x hx)]
        obtain ⟨i1, i2, i3, i4, i5⟩ :=
          ih (removeKey (entryOrDefault m b.name) b.name) hnd2
        refine ⟨by rw [hgo]; exact i1, ?_, ?_, ?_, ?_⟩
        · rw [hgo]
          simp only [List.filter_cons, hv', he, Bool.false_or, Bool.not_true,
            if_false]
          rw [i2]
          exact List.filter_congr (fun x hx => by rw [hsets x hx])
        · intro k hk
          rw [hgo]
          simp only [hmap, List.mem_cons, not_or] at hk
          rw [i3 k hk.2]
          exact htrans k hk.1
        · intro x hx hxv hxe
          rw [hgo]
          rcases List.mem_cons.mp hx with rfl | hx'
          · rw [i3 x.name hnd1]
            exact lookupSet_removeKey_self _ _
          · refine i4 x hx' hxv ?_
            rw [hsets x hx']
            exact hxe
        · intro x hx hxv hxe
          rw [hgo]
          rcases List.mem_cons.mp hx with rfl | hx'
          · rw [hxe] at he; cases he
          · rw [i5 x hx' hxv (by rw [hsets x hx']; exact hxe)]
            exact htrans x.name (hnames x hx')
      · have he' : (setOf m b.name).isEmpty = false := by
          simpa using he
        have hm1 : entryOrDefault m b.name = m :=
          entryOrDefault_of_nonempty m b.name he'
        have hgo : cleanupGo now maxAge (fun _ => false) (b :: rest) m =
            ((cleanupGo now maxAge (fun _ => false) rest m).1,
             b :: (cleanupGo now maxAge (fun _ => false) rest m).2.1,
             (cleanupGo now maxAge (fun _ => false) rest m).2.2) := by
          simp [cleanupGo, hv', hm1, setOf_entryOrDefault_self, he']
        obtain ⟨i1, i2, i3, i4, i5⟩ := ih m hnd2
        refine ⟨by rw [hgo]; exact i1, ?_, ?_, ?_, ?_⟩
        · rw [hgo]
          simp only [List.filter_cons, hv', he', Bool.false_or, Bool.not_false,
            if_true]
          rw [i2]
        · intro k hk
          rw [hgo]
          simp only [hmap, List.mem_cons, not_or] at hk
          exact i3 k hk.2
        · intro x hx hxv hxe
          rw [hgo]
          rcases List.mem_cons.mp hx with rfl | hx'
          · rw [hxe] at he'; cases he'
          · exact i4 x hx' hxv hxe
        · intro x hx hxv hxe
          rw [hgo]
          rcases List.mem_cons.mp hx with rfl | hx'
          · exact i3 x.name hnd1
          · exact i5 x hx' hxv hxe

/-- A reap pass over a disk on which every invalid base is referenced
changes nothing. -/
lemma cleanupGo_noop (now maxAge : Int) (rf : String → Bool)
    (disk : List Base) (m : Registry)
    (h : ∀ b ∈ disk, b.valid now maxAge = false →
      (setOf m b.name).isEmpty = false) :
    cleanupGo now maxAge rf disk m = (m, disk, none) := by
  induction disk with
  | nil => rfl
  | cons b rest ih =>
    have hrest : ∀ x ∈ rest, x.valid now maxAge = false →
        (setOf m x.name).isEmpty = false :=
      fun x hx => h x (List.mem_cons_of_mem b hx)
    by_cases hv : b.valid now maxAge = true
    · simp [cleanupGo, hv, ih hrest]
    · have hv' : b.valid now maxAge = false := by simpa using hv
      have he' : (setOf m b.name).isEmpty = false :=
        h b (List.mem_cons_self b rest) hv'
      have hm1 : entryOrDefault m b.name = m :=
        entryOrDefault_of_nonempty m b.name he'
      simp [cleanupGo, hv', hm1, setOf_entryOrDefault_self, he', ih hrest]

/-- Characterisation of a reap pass aborted by a `remove_dir_all` failure on
base `b`: the error is surfaced, the bases examined before `b` were already
reaped, `b` and the bases after it stay on disk, `b`'s registry entry exists
with an empty set, and the registry entries of the unexamined bases are
untouched. -/
lemma cleanupGo_err_spec (now maxAge : Int) (rf : String → Bool)
    (pre post : List Base) (b : Base) (m : Registry)
    (hnd : ((pre ++ b :: post).map Base.name).Nodup)
    (hpre : ∀ x ∈ pre, rf x.name = false)
    (hb : rf b.name = true)
    (hbv : b.valid now maxAge = false)
    (hbe : (setOf m b.name).isEmpty = true) :
    (cleanupGo now maxAge rf (pre ++ b :: post) m).2.2 =
      some (.removeFail b.name)
    ∧ (cleanupGo now maxAge rf (pre ++ b :: post) m).2.1 =
        pre.filter
          (fun x => x.valid now maxAge || !(setOf m x.name).isEmpty)
          ++ b :: post
    ∧ lookupSet (cleanupGo now maxAge rf (pre ++ b :: post) m).1 b.name =
        some []
    ∧ (∀ x ∈ post,
        lookupSet (cleanupGo now maxAge rf (pre ++ b :: post) m).1 x.name =
          lookupSet m x.name) := by
  induction pre generalizing m with
  | nil =>
    have hgo : cleanupGo now maxAge rf ([] ++ b :: post) m =
        (entryOrDefault m b.name, b :: post,
          some (CErr.removeFail b.name)) := by
      simp [cleanupGo, hbv, setOf_entryOrDefault_self, hbe, hb]
    have hbe' : setOf m b.name = [] := by
      cases hs : setOf m b.name with
      | nil => rfl
      | cons y ys => rw [hs] at hbe; cases hbe
    refine ⟨by rw [hgo], by rw [hgo]; rfl, ?_, ?_⟩
    · rw [hgo]
      show lookupSet (entryOrDefault m b.name) b.name = some []
      rw [lookupSet_entryOrDefault_self, hbe']
    · intro x hx
      rw [hgo]
      show lookupSet (entryOrDefault m b.name) x.name = lookupSet m x.name
      simp only [List.nil_append, List.map_cons, List.nodup_cons] at hnd
      have hne : x.name ≠ b.name := by
        intro hcon
        exact hnd.1 (hcon ▸ List.mem_map_of_mem Base.name hx)
      exact lookupSet_entryOrDefault_ne _ _ _ (Ne.symm hne)
  | cons a pre ih =>
    have hmap : ((a :: (pre ++ b :: post)).map Base.name) =
        a.name :: (pre ++ b :: post).map Base.name := rfl
    rw [List.cons_append, hmap] at hnd
    have hnd1 : a.name ∉ (pre ++ b :: post).map Base.name :=
      (List.nodup_cons.mp hnd).1
    have hnd2 : ((pre ++ b :: post).map Base.name).Nodup :=
      (List.nodup_cons.mp hnd).2
    have hanb : a.name ≠ b.name := by
      intro hcon
      refine hnd1 ?_
      rw [hcon]
      exact List.mem_map_of_mem Base.name (by simp)
    have hpre' : ∀ x ∈ pre, rf x.name = false :=
      fun x hx => hpre x (List.mem_cons_of_mem a hx)
    have hanames : ∀ x ∈ pre ++ b :: post, x.name ≠ a.name := by
      intro x hx hcon
      exact hnd1 (hcon ▸ List.mem_map_of_mem Base.name hx)
    by_cases hv : a.valid now maxAge = true
    · have hgo : cleanupGo now maxAge rf (a :: (pre ++ b :: post)) m =
          ((cleanupGo now maxAge rf (pre ++ b :: post) m).1,
           a :: (cleanupGo now maxAge rf (pre ++ b :: post) m).2.1,
           (cleanupGo now maxAge rf (pre ++ b :: post) m).2.2) := by
        simp [cleanupGo, hv]
      obtain ⟨i1, i2, i3, i4⟩ := ih m hnd2 hpre' hbe
      rw [List.cons_append, hgo]
      refine ⟨i1, ?_, i3, i4⟩
      simp only [List.filter_cons, hv, Bool.true_or, if_true]
      rw [i2]
      exact (List.cons_append a _ _).symm
    · have hv' : a.valid now maxAge = false := by simpa using hv
      by_cases he : (setOf m a.name).isEmpty = true
      · have hgo : cleanupGo now maxAge rf (a :: (pre ++ b :: post)) m =
            cleanupGo now maxAge rf (pre ++ b :: post)
              (removeKey (entryOrDefault m a.name) a.name) := by
          simp [cleanupGo, hv', setOf_entryOrDefault_self, he,
            hpre a (by simp)]
        have htrans : ∀ k, k ≠ a.name →
            lookupSet (removeKey (entryOrDefault m a.name) a.name) k =
              lookupSet m k := by
          intro k hk
          rw [lookupSet_removeKey_ne _ _ _ (Ne.symm hk),
            lookupSet_entryOrDefault_ne _ _ _ (Ne.symm hk)]
        have hsets : ∀ x ∈ pre ++ b :: post,
            setOf (removeKey (entryOrDefault m a.name) a.name) x.name =
              setOf m x.name := by
          intro x hx
          simp [setOf, htrans x.name (hanames x hx)]
        have hbe2 :
            (setOf (removeKey (entryOrDefault m a.name) a.name) b.name).isEmpty
              = true := by
          rw [hsets b (by simp)]
          exact hbe
        obtain ⟨i1, i2, i3, i4⟩ :=
          ih (removeKey (entryOrDefault m a.name) a.name) hnd2 hpre' hbe2
        rw [List.cons_append, hgo]
        refine ⟨i1, ?_, i3, ?_⟩
        · have hfil : List.filter (fun x =>
              x.valid now maxAge || !(setOf m x.name).isEmpty) (a :: pre) =
              List.filter (fun x =>
                x.valid now maxAge || !(setOf m x.name).isEmpty) pre := by
            simp [List.filter_cons, hv', he]
          rw [hfil, i2]
          have hs : pre.filter (fun x =>
              x.valid now maxAge ||
                !(setOf (removeKey (entryOrDefault m a.name) a.name)
                  x.name).isEmpty) =
              pre.filter (fun x =>
                x.valid now maxAge || !(setOf m x.name).isEmpty) :=
            List.filter_congr (fun x hx => by
              rw [hsets x (List.mem_append_left _ hx)])
          rw [hs]
        · intro x hx
          rw [i4 x hx]
          exact htrans x.name
            (hanames x (List.mem_append_right _ (List.mem_cons_of_mem b hx)))
      · have he' : (setOf m a.name).isEmpty = false := by simpa using he
        have hm1 : entryOrDefault m a.name = m :=
          entryOrDefault_of_nonempty m a.name he'
        have hgo : cleanupGo now maxAge rf (a :: (pre ++ b :: post)) m =
            ((cleanupGo now maxAge rf (pre ++ b :: post) m).1,
             a :: (cleanupGo now maxAge rf (pre ++ b :: post) m).2.1,
             (cleanupGo now maxAge rf (pre ++ b :: post) m).2.2) := by
          simp [cleanupGo, hv', hm1, setOf_entryOrDefault_self, he']
        obtain ⟨i1, i2, i3, i4⟩ := ih m hnd2 hpre' hbe
        rw [List.cons_append, hgo]
        refine ⟨i1, ?_, i3, i4⟩
        simp only [List.filter_cons, hv', he', Bool.false_or, Bool.not_false,
          if_true]
        rw [i2]
        exact (List.cons_append a _ _).symm

/-- The age check performed in `Base::valid`, characterised arithmetically. -/
lemma ageCheck (a m : Int) :
    (if a < 0 then false else if a < m then true else false) = true ↔
      0 ≤ a ∧ a < m := by
  split_ifs with h1 h2 <;> simp <;> omega

/-- C4: `Base.valid` holds iff the marker exists, parses, and the age is
non-negative and strictly below the maximum; the exact boundary
`t = now - maxAge` and any future-dated timestamp are invalid, and a missing
or unparsable marker is invalid (the function is total, so it never fails). -/
theorem valid_iff (b : Base) (now maxAge : Int) :
    (b.valid now maxAge = true ↔
      ∃ t, b.marker = .ts t ∧ 0 ≤ now - t ∧ now - t < maxAge) ∧
    (Base.mk b.name (.ts (now - maxAge))).valid now maxAge = false ∧
    (∀ t, now < t → (Base.mk b.name (.ts t)).valid now maxAge = false) ∧
    (Base.mk b.name .absent).valid now maxAge = false ∧
    (Base.mk b.name .unparsable).valid now maxAge = false := by
  refine ⟨?_, ?_, ?_, rfl, rfl⟩
  · cases hm : b.marker with
    | absent => simp [Base.valid, hm, Marker.readTime]
    | unparsable => simp [Base.valid, hm, Marker.readTime]
    | ts t0 =>
      simp only [Base.valid, hm, Marker.readTime, Marker.ts.injEq]
      rw [ageCheck]
      constructor
      · rintro ⟨h1, h2⟩
        exact ⟨t0, rfl, h1, h2⟩
      · rintro ⟨t, ht, h1, h2⟩
        subst ht
        exact ⟨h1, h2⟩
  · simp only [Base.valid, Marker.readTime]
    split_ifs with h1 h2
    · rfl
    · exact absurd h2 (by omega)
    · rfl
  · intro t ht
    simp only [Base.valid, Marker.readTime]
    split_ifs with h1 h2
    · rfl
    · exact absurd ht (by omega)
    · rfl

/-- Witness: `valid_iff` applied to a future-dated base. -/
theorem valid_iff_witness : (Base.mk "b" (.ts 11)).valid 10 20 = false :=
  (valid_iff (Base.mk "b" (.ts 11)) 10 20).2.2.1 11 (by decide)

/-- Shared characterisation of a fully successful reap pass, at the level
of `cleanup`. -/
lemma cleanup_ok_parts (st : St) (now maxAge : Int)
    (he : st.enumOk = true) (hnd : (st.disk.map Base.name).Nodup) :
    (cleanup st now maxAge (fun _ => false)).2 = none
    ∧ (cleanup st now maxAge (fun _ => false)).1.disk =
        st.disk.filter
          (fun b => b.valid now maxAge || !(setOf st.registry b.name).isEmpty)
    ∧ (∀ b ∈ st.disk, b.valid now maxAge = false →
        (setOf st.registry b.name).isEmpty = true →
        lookupSet (cleanup st now maxAge (fun _ => false)).1.registry b.name
          = none)
    ∧ (∀ b ∈ (cleanup st now maxAge (fun _ => false)).1.disk,
        b.valid now maxAge = false →
        (setOf (cleanup st now maxAge (fun _ => false)).1.registry
          b.name).isEmpty = false) := by
  obtain ⟨i1, i2, i3, i4, i5⟩ :=
    cleanupGo_ok_spec now maxAge st.disk st.registry hnd
  have hcl : cleanup st now maxAge (fun _ => false) =
      ({ st with
          registry :=
            (cleanupGo now maxAge (fun _ => false) st.disk st.registry).1,
          disk :=
            (cleanupGo now maxAge (fun _ => false) st.disk st.registry).2.1 },
       (cleanupGo now maxAge (fun _ => false) st.disk st.registry).2.2) := by
    simp [cleanup, he]
  rw [hcl]
  refine ⟨i1, i2, fun b hb hbv hbe => i4 b hb hbv hbe, ?_⟩
  intro b hb hbv
  rw [show ({ st with
      registry := (cleanupGo now maxAge (fun _ => false) st.disk st.registry).1,
      disk := (cleanupGo now maxAge (fun _ => false) st.disk st.registry).2.1 }
        : St).disk =
      (cleanupGo now maxAge (fun _ => false) st.disk st.registry).2.1 from rfl,
    i2] at hb
  have hmem := List.mem_of_mem_filter hb
  have hpred := List.of_mem_filter hb
  rw [hbv] at hpred
  simp only [Bool.false_or, Bool.not_eq_true'] at hpred
  have h5 := i5 b hmem hbv hpred
  show (setOf (cleanupGo now maxAge (fun _ => false) st.disk st.registry).1
      b.name).isEmpty = false
  rw [setOf, h5]
  exact hpred

/-- C2: a reap pass in which no removal fails returns no error, deletes
exactly the base directories that are invalid and have an empty or absent
registry set, drops the registry entry of each deleted base, and afterwards
every invalid base directory remaining on disk has a non-empty registry
set. -/
theorem cleanup_reaps_exactly (st : St) (now maxAge : Int)
    (he : st.enumOk = true) (hnd : (st.disk.map Base.name).Nodup) :
    (cleanup st now maxAge (fun _ => false)).2 = none
    ∧ (cleanup st now maxAge (fun _ => false)).1.disk =
        st.disk.filter
          (fun b => b.valid now maxAge || !(setOf st.registry b.name).isEmpty)
    ∧ (∀ b ∈ st.disk, b.valid now maxAge = false →
        (setOf st.registry b.name).isEmpty = true →
        lookupSet (cleanup st now maxAge (fun _ => false)).1.registry b.name
          = none)
    ∧ (∀ b ∈ (cleanup st now maxAge (fun _ => false)).1.disk,
        b.valid now maxAge = false →
        (setOf (cleanup st now maxAge (fun _ => false)).1.registry
          b.name).isEmpty = false) :=
  cleanup_ok_parts st now maxAge he hnd

/-- Witness: `cleanup_reaps_exactly` on a registry where base `old` is
invalid and unreferenced (deleted) while base `used` is invalid but
referenced (kept). -/
theorem cleanup_reaps_exactly_witness :
    (cleanup ⟨[("used", ["v"])],
        [⟨"old", Marker.ts 0⟩, ⟨"used", Marker.ts 0⟩], true⟩
        100 10 (fun _ => false)).1.disk =
      [⟨"old", Marker.ts 0⟩, ⟨"used", Marker.ts 0⟩].filter
        (fun b => b.valid 100 10 ||
          !(setOf [("used", ["v"])] b.name).isEmpty) :=
  (cleanup_reaps_exactly
    ⟨[("used", ["v"])], [⟨"old", Marker.ts 0⟩, ⟨"used", Marker.ts 0⟩], true⟩
    100 10 rfl (by decide)).2.1

/-- C8: running the reaper twice in succession (same clock, no intervening
mount or unmount) is the same as running it once: the second pass returns
the first pass's state unchanged and reports no error. -/
theorem cleanup_idempotent (st : St) (now maxAge : Int)
    (he : st.enumOk = true) (hnd : (st.disk.map Base.name).Nodup) :
    cleanup ((cleanup st now maxAge (fun _ => false)).1) now maxAge
        (fun _ => false) =
      ((cleanup st now maxAge (fun _ => false)).1, none) := by
  obtain ⟨i1, i2, i3, i4⟩ := cleanup_ok_parts st now maxAge he hnd
  have he1 : (cleanup st now maxAge (fun _ => false)).1.enumOk = true := by
    simp [cleanup, he]
  clear i1 i2 i3 hnd he
  revert i4 he1
  generalize (cleanup st now maxAge (fun _ => false)).1 = st1
  intro i4 he1
  have hnoop := cleanupGo_noop now maxAge (fun _ => false)
    st1.disk st1.registry i4
  simp [cleanup, he1, hnoop]
  rw [← he1]

/-- Witness: `cleanup_idempotent` on the registry of
`cleanup_reaps_exactly_witness`. -/
theorem cleanup_idempotent_witness :
    cleanup ((cleanup ⟨[("used", ["v"])],
        [⟨"old", Marker.ts 0⟩, ⟨"used", Marker.ts 0⟩], true⟩
        100 10 (fun _ => false)).1) 100 10 (fun _ => false) =
      ((cleanup ⟨[("used", ["v"])],
        [⟨"old", Marker.ts 0⟩, ⟨"used", Marker.ts 0⟩], true⟩
        100 10 (fun _ => false)).1, none) :=
  cleanup_idempotent
    ⟨[("used", ["v"])], [⟨"old", Marker.ts 0⟩, ⟨"used", Marker.ts 0⟩], true⟩
    100 10 rfl (by decide)

/-- C10: when `remove_dir_all` fails on base `b` during a reap pass, the
error is returned immediately: the bases before `b` in the enumeration were
already deleted (exactly the unreferenced invalid ones), `b` and every base
after it remain on disk, the registry retains an empty-set entry for `b`
(freshly created by `entry(..).or_default()` when absent), and the registry
entries of the bases after `b` are untouched. -/
theorem cleanup_error_aborts (st : St) (now maxAge : Int)
    (rf : String → Bool) (pre post : List Base) (b : Base)
    (hdisk : st.disk = pre ++ b :: post)
    (he : st.enumOk = true)
    (hnd : (st.disk.map Base.name).Nodup)
    (hpre : ∀ x ∈ pre, rf x.name = false)
    (hb : rf b.name = true)
    (hbv : b.valid now maxAge = false)
    (hbe : (setOf st.registry b.name).isEmpty = true) :
    (cleanup st now maxAge rf).2 = some (.removeFail b.name)
    ∧ (cleanup st now maxAge rf).1.disk =
        pre.filter
          (fun x => x.valid now maxAge || !(setOf st.registry x.name).isEmpty)
          ++ b :: post
    ∧ lookupSet (cleanup st now maxAge rf).1.registry b.name = some []
    ∧ (∀ x ∈ post,
        lookupSet (cleanup st now maxAge rf).1.registry x.name =
          lookupSet st.registry x.name) := by
  rw [hdisk] at hnd
  obtain ⟨i1, i2, i3, i4⟩ :=
    cleanupGo_err_spec now maxAge rf pre post b st.registry hnd hpre hb hbv hbe
  have hcl : cleanup st now maxAge rf =
      ({ st with
          registry :=
            (cleanupGo now maxAge rf (pre ++ b :: post) st.registry).1,
          disk :=
            (cleanupGo now maxAge rf (pre ++ b :: post) st.registry).2.1 },
       (cleanupGo now maxAge rf (pre ++ b :: post) st.registry).2.2) := by
    simp [cleanup, he, hdisk]
  rw [hcl]
  exact ⟨i1, i2, i3, i4⟩

/-- Witness: `cleanup_error_aborts` where removal of base `a` fails and
base `b` comes after it in the enumeration. -/
theorem cleanup_error_aborts_witness :
    lookupSet (cleanup ⟨[("b", ["v"])],
        [⟨"a", Marker.ts 0⟩, ⟨"b", Marker.ts 0⟩], true⟩
        100 10 (fun n => n == "a")).1.registry "a" = some [] :=
  (cleanup_error_aborts
    ⟨[("b", ["v"])], [⟨"a", Marker.ts 0⟩, ⟨"b", Marker.ts 0⟩], true⟩
    100 10 (fun n => n == "a") [] [⟨"b", Marker.ts 0⟩] ⟨"a", Marker.ts 0⟩
    rfl rfl (by decide) (by simp) rfl (by decide) rfl).2.2.1

lemma unmountRest_registry (st : St) (id target : String) (e : UnmountEnv)
    (acts : List Act) :
    (unmountRest st id target e acts).st.registry =
      dissociate st.registry id := by
  simp only [unmountRest]
  split <;> rfl

lemma unmountRest_acts (st : St) (id target : String) (e : UnmountEnv)
    (acts : List Act) :
    (unmountRest st id target e acts).acts =
      acts ++ [Act.umountAct target, Act.deletePodAct id] := by
  simp only [unmountRest]
  split <;> rfl

/-- C6: after any call to `unmount` — promotion branch taken or not, and
whether or not the call returned an error — the volume id is a member of no
set in the resulting registry (the dissociation loop runs on every path
that mutates the registry, and on the early-error paths the id was already
in no set because `is_overlay` was false). -/
theorem unmount_dissociates (st : St) (id target podsRoot : String)
    (now maxAge : Int) (e : UnmountEnv) :
    isOverlay (unmount st id target podsRoot now maxAge e).st.registry id =
      false := by
  by_cases hc :
      (!isOverlay st.registry id && noValidBase st now maxAge) = true
  · have hov : isOverlay st.registry id = false := by
      have h1 := (Bool.and_eq_true _ _).mp hc
      simpa using h1.1
    by_cases hp : e.podGetOk = true
    · cases hsm : e.scratchMarker with
      | some mk =>
        simp only [unmount, hsm]
        rw [if_pos hc, if_neg (by simp [hp])]
        by_cases hr : e.renameOk = true
        · rw [if_neg (by simp [hr])]
          by_cases hw : e.writeTimeOk = true
          · rw [if_neg (by simp [hw]), unmountRest_registry]
            exact isOverlay_dissociate _ _
          · rw [if_pos (by simp [hw])]
            exact hov
        · rw [if_pos (by simp [hr])]
          exact hov
      | none =>
        simp only [unmount, hsm]
        rw [if_pos hc, if_neg (by simp [hp]), unmountRest_registry]
        exact isOverlay_dissociate _ _
    · simp only [unmount]
      rw [if_pos hc, if_pos (by simp [hp])]
      exact hov
  · simp only [unmount]
    rw [if_neg hc, unmountRest_registry]
    exact isOverlay_dissociate _ _

/-- C1: a rename into the bases root happens in `unmount` only when
`is_overlay` is false, `no_valid_base` is true and the scratch directory
contains the `.as_base` marker; conversely, when the sidecar-pod lookup
succeeds and those three conditions hold, the scratch directory is renamed
to `bases_host/volume_id`, and (when the rename itself succeeds) a fresh
marker carrying the current time is written. -/
theorem unmount_promotion_iff (st : St) (id target podsRoot : String)
    (now maxAge : Int) (e : UnmountEnv) :
    (∀ src dst,
      Act.renameAct src dst ∈
          (unmount st id target podsRoot now maxAge e).acts →
        isOverlay st.registry id = false
        ∧ noValidBase st now maxAge = true
        ∧ e.scratchMarker.isSome = true)
    ∧ (e.podGetOk = true → isOverlay st.registry id = false →
        noValidBase st now maxAge = true → e.scratchMarker.isSome = true →
        Act.renameAct (volumeDir podsRoot e.uid) id ∈
          (unmount st id target podsRoot now maxAge e).acts)
    ∧ (e.podGetOk = true → e.renameOk = true →
        isOverlay st.registry id = false →
        noValidBase st now maxAge = true → e.scratchMarker.isSome = true →
        Act.writeMarkerAct id now ∈
          (unmount st id target podsRoot now maxAge e).acts) := by
  by_cases hc :
      (!isOverlay st.registry id && noValidBase st now maxAge) = true
  · have h1 := (Bool.and_eq_true _ _).mp hc
    have hov : isOverlay st.registry id = false := by simpa using h1.1
    have hnv : noValidBase st now maxAge = true := h1.2
    by_cases hp : e.podGetOk = true
    · cases hsm : e.scratchMarker with
      | some mk =>
        simp only [unmount, hsm]
        rw [if_pos hc, if_neg (by simp [hp])]
        by_cases hr : e.renameOk = true
        · rw [if_neg (by simp [hr])]
          by_cases hw : e.writeTimeOk = true
          · rw [if_neg (by simp [hw])]
            rw [unmountRest_acts]
            exact ⟨fun src dst _ => ⟨hov, hnv, rfl⟩,
              fun _ _ _ _ => by simp,
              fun _ _ _ _ _ => by simp⟩
          · rw [if_pos (by simp [hw])]
            exact ⟨fun src dst _ => ⟨hov, hnv, rfl⟩,
              fun _ _ _ _ => by simp,
              fun _ _ _ _ _ => by simp⟩
        · rw [if_pos (by simp [hr])]
          refine ⟨fun src dst _ => ⟨hov, hnv, rfl⟩,
            fun _ _ _ _ => by simp, fun _ hr' _ _ _ => ?_⟩
          rw [hr'] at hr
          exact absurd rfl hr
      | none =>
        simp only [unmount, hsm]
        rw [if_pos hc, if_neg (by simp [hp]), unmountRest_acts]
        refine ⟨fun src dst hmem => ?_, fun _ _ _ hs => ?_,
          fun _ _ _ _ hs => ?_⟩
        · simp at hmem
        · cases hs
        · cases hs
    · simp only [unmount]
      rw [if_pos hc, if_pos (by simp [hp])]
      refine ⟨fun src dst hmem => ?_, fun hp' _ _ _ => ?_,
        fun hp' _ _ _ _ => ?_⟩
      · simp at hmem
      · rw [hp'] at hp; exact absurd rfl hp
      · rw [hp'] at hp; exact absurd rfl hp
  · simp only [unmount]
    rw [if_neg hc, unmountRest_acts]
    refine ⟨fun src dst hmem => ?_, fun _ hov hnv _ => ?_,
      fun _ _ hov hnv _ => ?_⟩
    · simp at hmem
    · exact absurd (by rw [hov, hnv]; rfl) hc
    · exact absurd (by rw [hov, hnv]; rfl) hc

/-- Witness: `unmount_promotion_iff` on an empty registry and empty bases
root with the `.as_base` marker present: the rename is invoked. -/
theorem unmount_promotion_iff_witness :
    Act.renameAct (volumeDir "/p" "uid") "v" ∈
      (unmount ⟨[], [], true⟩ "v" "/mnt" "/p" 5 10
        ⟨"uid", true, some .unparsable, true, true, true, true⟩).acts :=
  (unmount_promotion_iff ⟨[], [], true⟩ "v" "/mnt" "/p" 5 10
    ⟨"uid", true, some .unparsable, true, true, true, true⟩).2.1
    rfl rfl rfl rfl

/-- C9: the exit status of `umount -f` is ignored (`unchecked` in the
source): the result of `unmount` is the same whatever the exit status, and
whenever the `umount` command was reached, the sidecar-pod deletion is
still requested. -/
theorem umount_exit_ignored (st : St) (id target podsRoot : String)
    (now maxAge : Int) (e : UnmountEnv) :
    (∀ b1 b2 : Bool,
      unmount st id target podsRoot now maxAge { e with umountExitOk := b1 } =
        unmount st id target podsRoot now maxAge
          { e with umountExitOk := b2 })
    ∧ (Act.umountAct target ∈
        (unmount st id target podsRoot now maxAge e).acts →
        Act.deletePodAct id ∈
          (unmount st id target podsRoot now maxAge e).acts) := by
  constructor
  · intro b1 b2
    rfl
  · by_cases hc :
        (!isOverlay st.registry id && noValidBase st now maxAge) = true
    · by_cases hp : e.podGetOk = true
      · cases hsm : e.scratchMarker with
        | some mk =>
          simp only [unmount, hsm]
          rw [if_pos hc, if_neg (by simp [hp])]
          by_cases hr : e.renameOk = true
          · rw [if_neg (by simp [hr])]
            by_cases hw : e.writeTimeOk = true
            · rw [if_neg (by simp [hw]), unmountRest_acts]
              intro _
              simp
            · rw [if_pos (by simp [hw])]
              intro hmem
              simp at hmem
          · rw [if_pos (by simp [hr])]
            intro hmem
            simp at hmem
        | none =>
          simp only [unmount, hsm]
          rw [if_pos hc, if_neg (by simp [hp]), unmountRest_acts]
          intro _
          simp
      · simp only [unmount]
        rw [if_pos hc, if_pos (by simp [hp])]
        intro hmem
        simp at hmem
    · simp only [unmount]
      rw [if_neg hc, unmountRest_acts]
      intro _
      simp

/-- Witness: `umount_exit_ignored` with a failing `umount`: pod deletion is
still requested. -/
theorem umount_exit_ignored_witness :
    Act.deletePodAct "v" ∈
      (unmount ⟨[], [], true⟩ "v" "/mnt" "/p" 0 10
        ⟨"u", true, none, true, true, false, true⟩).acts :=
  (umount_exit_ignored ⟨[], [], true⟩ "v" "/mnt" "/p" 0 10
    ⟨"u", true, none, true, true, false, true⟩).2 (by decide)

/-- C3: a successful `mount` either found a valid base — then `upper/` and
`workdir/` are created under the scratch directory, the overlay mount with
that base as `lowerdir` is invoked and the volume id is inserted into that
base's registry set — or found none, and then the bind mount of the scratch
directory onto the target is invoked and the registry is unchanged (the id
is added to no set). -/
theorem mount_spec (st : St) (id target podsRoot : String) (now maxAge : Int)
    (e : MountEnv)
    (h : (mount st id target podsRoot now maxAge e).res = .ok ()) :
    (∃ base, findValidBase st now maxAge = .ok (some base)
      ∧ Act.mkdirAct (volumeDir podsRoot e.uid ++ "/upper") ∈
          (mount st id target podsRoot now maxAge e).acts
      ∧ Act.mkdirAct (volumeDir podsRoot e.uid ++ "/workdir") ∈
          (mount st id target podsRoot now maxAge e).acts
      ∧ Act.overlayMount base.name id target ∈
          (mount st id target podsRoot now maxAge e).acts
      ∧ (mount st id target podsRoot now maxAge e).st.registry =
          assocInsert st.registry base.name id
      ∧ id ∈ setOf (mount st id target podsRoot now maxAge e).st.registry
          base.name)
    ∨ (findValidBase st now maxAge = .ok none
      ∧ Act.bindMount (volumeDir podsRoot e.uid) target ∈
          (mount st id target podsRoot now maxAge e).acts
      ∧ (mount st id target podsRoot now maxAge e).st.registry =
          st.registry) := by
  by_cases h1 : e.createPodOk = true
  · by_cases h2 : e.mkMountpointOk = true
    · cases hf : findValidBase st now maxAge with
      | error u =>
        exfalso
        simp [mount, h1, h2, hf] at h
      | ok o =>
        cases o with
        | some base =>
          by_cases h3 : e.mkUpperOk = true
          · by_cases h4 : e.mkWorkOk = true
            · by_cases h5 : e.mountCmdOk = true
              · left
                have hreg :
                    (mount st id target podsRoot now maxAge e).st.registry =
                      assocInsert st.registry base.name id := by
                  simp [mount, h1, h2, hf, h3, h4, h5]
                refine ⟨base, rfl, ?_, ?_, ?_, hreg, ?_⟩
                · simp [mount, h1, h2, hf, h3, h4, h5]
                · simp [mount, h1, h2, hf, h3, h4, h5]
                · simp [mount, h1, h2, hf, h3, h4, h5]
                · rw [hreg]
                  exact mem_setOf_assocInsert_self st.registry base.name id
              · exfalso
                simp [mount, h1, h2, hf, h3, h4, h5] at h
            · exfalso
              simp [mount, h1, h2, hf, h3, h4] at h
          · exfalso
            simp [mount, h1, h2, hf, h3] at h
        | none =>
          by_cases h6 : e.mkVolumeDirOk = true
          · by_cases h5 : e.mountCmdOk = true
            · right
              refine ⟨rfl, ?_, ?_⟩
              · simp [mount, h1, h2, hf, h6, h5]
              · simp [mount, h1, h2, hf, h6, h5]
            · exfalso
              simp [mount, h1, h2, hf, h6, h5] at h
          · exfalso
            simp [mount, h1, h2, hf, h6] at h
    · exfalso
      simp [mount, h1, h2] at h
  · exfalso
    simp [mount, h1] at h

/-- Witness: `mount_spec` on a bases root holding one valid base. -/
theorem mount_spec_witness :
    (∃ base,
      findValidBase ⟨[], [⟨"base1", Marker.ts 0⟩], true⟩ 5 10 =
          .ok (some base)
      ∧ Act.mkdirAct (volumeDir "/p" "uid" ++ "/upper") ∈
          (mount ⟨[], [⟨"base1", Marker.ts 0⟩], true⟩ "v" "/mnt" "/p" 5 10
            ⟨"uid", true, true, true, true, true, true⟩).acts
      ∧ Act.mkdirAct (volumeDir "/p" "uid" ++ "/workdir") ∈
          (mount ⟨[], [⟨"base1", Marker.ts 0⟩], true⟩ "v" "/mnt" "/p" 5 10
            ⟨"uid", true, true, true, true, true, true⟩).acts
      ∧ Act.overlayMount base.name "v" "/mnt" ∈
          (mount ⟨[], [⟨"base1", Marker.ts 0⟩], true⟩ "v" "/mnt" "/p" 5 10
            ⟨"uid", true, true, true, true, true, true⟩).acts
      ∧ (mount ⟨[], [⟨"base1", Marker.ts 0⟩], true⟩ "v" "/mnt" "/p" 5 10
            ⟨"uid", true, true, true, true, true, true⟩).st.registry =
          assocInsert [] base.name "v"
      ∧ "v" ∈ setOf
          (mount ⟨[], [⟨"base1", Marker.ts 0⟩], true⟩ "v" "/mnt" "/p" 5 10
            ⟨"uid", true, true, true, true, true, true⟩).st.registry
          base.name)
    ∨ (findValidBase ⟨[], [⟨"base1", Marker.ts 0⟩], true⟩ 5 10 = .ok none
      ∧ Act.bindMount (volumeDir "/p" "uid") "/mnt" ∈
          (mount ⟨[], [⟨"base1", Marker.ts 0⟩], true⟩ "v" "/mnt" "/p" 5 10
            ⟨"uid", true, true, true, true, true, true⟩).acts
      ∧ (mount ⟨[], [⟨"base1", Marker.ts 0⟩], true⟩ "v" "/mnt" "/p" 5 10
            ⟨"uid", true, true, true, true, true, true⟩).st.registry = []) :=
  mount_spec ⟨[], [⟨"base1", Marker.ts 0⟩], true⟩ "v" "/mnt" "/p" 5 10
    ⟨"uid", true, true, true, true, true, true⟩ rfl

/-- C7: whenever `mount` returns an error — pod provisioning, directory
creation, base enumeration or the mount command itself failing — the
registry is left exactly as it was: the association is only made after the
mount command succeeded. -/
theorem mount_error_keeps_registry (st : St) (id target podsRoot : String)
    (now maxAge : Int) (e : MountEnv)
    (h : (mount st id target podsRoot now maxAge e).res = .error ()) :
    (mount st id target podsRoot now maxAge e).st.registry = st.registry := by
  by_cases h1 : e.createPodOk = true
  · by_cases h2 : e.mkMountpointOk = true
    · cases hf : findValidBase st now maxAge with
      | error u =>
        simp [mount, h1, h2, hf]
      | ok o =>
        cases o with
        | some base =>
          by_cases h3 : e.mkUpperOk = true
          · by_cases h4 : e.mkWorkOk = true
            · by_cases h5 : e.mountCmdOk = true
              · exfalso
                simp [mount, h1, h2, hf, h3, h4, h5] at h
              · simp [mount, h1, h2, hf, h3, h4, h5]
            · simp [mount, h1, h2, hf, h3, h4]
          · simp [mount, h1, h2, hf, h3]
        | none =>
          by_cases h6 : e.mkVolumeDirOk = true
          · by_cases h5 : e.mountCmdOk = true
            · exfalso
              simp [mount, h1, h2, hf, h6, h5] at h
            · simp [mount, h1, h2, hf, h6, h5]
          · simp [mount, h1, h2, hf, h6]
    · simp [mount, h1, h2]
  · simp [mount, h1]

/-- Witness: `mount_error_keeps_registry` when the overlay mount command
exits non-zero. -/
theorem mount_error_keeps_registry_witness :
    (mount ⟨[("b", ["w"])], [⟨"b", Marker.ts 0⟩], true⟩ "v" "/mnt" "/p" 5 10
      ⟨"uid", true, true, true, true, true, false⟩).st.registry =
      [("b", ["w"])] :=
  mount_error_keeps_registry ⟨[("b", ["w"])], [⟨"b", Marker.ts 0⟩], true⟩
    "v" "/mnt" "/p" 5 10 ⟨"uid", true, true, true, true, true, false⟩ rfl

lemma watchPod_running_iff (s : List WItem) :
    watchPod s = .ok true ↔ runningBeforeErr s = true := by
  induction s with
  | nil => simp [watchPod, runningBeforeErr]
  | cons i rest ih =>
    cases i with
    | errItem => simp [watchPod, runningBeforeErr]
    | other => simpa [watchPod, runningBeforeErr] using ih
    | modified p =>
      by_cases hp : (p == some "Running") = true
      · simp [watchPod, runningBeforeErr, hp]
      · have hp' : (p == some "Running") = false := by simpa using hp
        simpa [watchPod, runningBeforeErr, hp'] using ih

/-- C5 counterexample: a watch stream that ends without ever delivering a
`Running` event makes `watch_pod` return `Ok(())`, so the `create_pod`
retry loop returns the pod uid instead of restarting the watch. -/
theorem createPodLoop_stream_end_counterexample :
    createPodLoop [[WItem.modified (some "Pending")]] = some false
    ∧ runningBeforeErr [WItem.modified (some "Pending")] = false
    ∧ watchPod [WItem.modified (some "Pending")] = .ok false :=
  ⟨rfl, rfl, rfl⟩

/-- C5 (amended): the `create_pod` retry loop returns the pod uid exactly
when a watch attempt completes without a transport error, which happens
either when a `Modified` event with phase `Running` is observed (before any
transport error) or when the stream ends; every non-`Running` event is
ignored; a transport error (and only a transport error) restarts the watch,
with unbounded retries. -/
theorem createPodLoop_spec (s : List WItem) (rest : List (List WItem)) :
    (watchPod s = .error () → createPodLoop (s :: rest) = createPodLoop rest)
    ∧ (∀ b, watchPod s = .ok b → createPodLoop (s :: rest) = some b)
    ∧ (watchPod s = .ok true ↔ runningBeforeErr s = true)
    ∧ (∀ p, p ≠ some "Running" →
        watchPod (WItem.modified p :: s) = watchPod s)
    ∧ watchPod (WItem.other :: s) = watchPod s := by
  refine ⟨?_, ?_, watchPod_running_iff s, ?_, rfl⟩
  · intro h
    simp [createPodLoop, h]
  · intro b h
    simp [createPodLoop, h]
  · intro p hp
    have hp' : (p == some "Running") = false := by
      simpa using hp
    simp [watchPod, hp']

/-- Witness: `createPodLoop_spec` — a transport error restarts the watch
with the next stream. -/
theorem createPodLoop_spec_witness :
    createPodLoop [[WItem.errItem]] = createPodLoop [] :=
  (createPodLoop_spec [WItem.errItem] []).1 rfl

end Overlayfs
